import Mathlib
namespace RouteView
/-!
# Verification of the RouteView route-to-camera-path pipeline

Shallow embedding of the pipeline in `src/src/worker/`:

* `blendImages` (src/src/worker/image-processing.ts) — per-pixel linear
  blending of two RGBA byte buffers;
* the frame-enhancement loop building `enhancedFrames`
  (src/src/worker/index.ts, lines 167–194);
* `generateWaypoints` (src/src/worker/waypoints.ts) — the active arc-length
  resampler over a flattened route polyline;
* the heading helpers `smoothCubic` and `blendHeadingsWithMomentum`
  (src/src/worker/waypoints - Copy.ts).

Numbers are embedded as exact rationals (`ℚ`); JavaScript `Math.round`,
the `%` remainder operator and `Uint8Array` byte stores are modelled
explicitly.  The external collaborators from `spherical-geometry-js`
(`computeDistanceBetween`, `computeHeading`, `interpolate`) are not part of
the repository; the pipeline is embedded parametrically over a
`SphericalGeo` structure holding those three functions, and theorems state
the contracts they assume of it explicitly.
-/
/-- JavaScript `Math.round`: round half toward positive infinity. -/
def jsRound (x : ℚ) : Int := ⌊x + 1/2⌋
/-- Storing an integer into a `Uint8Array` slot (ECMAScript `ToUint8`):
reduce modulo 2^8. -/
def toUint8 (n : Int) : ℕ := (n % 256).toNat
/-- State of the `blendImages` loop: the two input buffers (only ever read)
and the output buffer `newBuffer`, allocated by `new Uint8Array(buffer1.length)`
(zero-filled). -/
structure ImageBuffers where
  buffer1 : List ℕ
  buffer2 : List ℕ
  newBuffer : List ℕ
deriving Repr, DecidableEq
/-- One colour-channel blend at byte offset `i`:
`Math.round(buffer1[i] * (1 - ratio) + buffer2[i] * ratio)` stored as a byte.
Out-of-range reads are modelled by `getD _ 0`; they never reach an in-range
store (see `blendRun_newBuffer`). -/
def blendChannel (b1 b2 : List ℕ) (ratio : ℚ) (i : ℕ) : ℕ :=
  toUint8 (jsRound ((b1.getD i 0 : ℚ) * (1 - ratio) + (b2.getD i 0 : ℚ) * ratio))
/-- The four stores of one loop iteration of `blendImages` (index `i`, a
multiple of 4): red, green, blue blended, alpha copied from `buffer1`.
A `List.set` at an out-of-range index is a no-op, exactly as a store past
the end of a JS typed array. -/
def writeGroup (b1 b2 : List ℕ) (ratio : ℚ) (out : List ℕ) (i : ℕ) : List ℕ :=
  (((out.set i (blendChannel b1 b2 ratio i)).set (i+1)
      (blendChannel b1 b2 ratio (i+1))).set (i+2)
      (blendChannel b1 b2 ratio (i+2))).set (i+3)
      (b1.getD (i+3) 0)
/-- One iteration of the `blendImages` loop as a state transformer: only
`newBuffer` is written, `buffer1` and `buffer2` pass through untouched. -/
def blendBodyStep (ratio : ℚ) (s : ImageBuffers) (i : ℕ) : ImageBuffers :=
  { s with newBuffer := writeGroup s.buffer1 s.buffer2 ratio s.newBuffer i }
/-- The loop `for (let i = 0; i < buffer1.length; i += 4)` of `blendImages`,
as a fold over its iteration indices `0, 4, 8, …` (there are
`⌈buffer1.length / 4⌉` of them). -/
def blendRun (buffer1 buffer2 : List ℕ) (ratio : ℚ) : ImageBuffers :=
  (List.range' 0 ((buffer1.length + 3) / 4) 4).foldl (blendBodyStep ratio)
    ⟨buffer1, buffer2, List.replicate buffer1.length 0⟩
/-- `blendImages` from src/src/worker/image-processing.ts: guard on equal
byte lengths (`throw` modelled as `Except.error`), then the blending loop;
returns the freshly allocated output buffer. -/
def blendImages (buffer1 buffer2 : List ℕ) (ratio : ℚ) : Except String (List ℕ) :=
  if buffer1.length ≠ buffer2.length then
    Except.error "Buffers must have the same length to be blended."
  else
    Except.ok (blendRun buffer1 buffer2 ratio).newBuffer
/-- The value `blendImages` leaves at byte offset `p`: alpha bytes
(offset ≡ 3 mod 4) are copied from `buffer1`, colour bytes are blended. -/
def blendValue (b1 b2 : List ℕ) (ratio : ℚ) (p : ℕ) : ℕ :=
  if p % 4 = 3 then b1.getD p 0 else blendChannel b1 b2 ratio p
/-! ## The frame-enhancement loop (src/src/worker/index.ts, lines 167–194) -/
/-- A decoded frame: raw byte buffer plus pixel dimensions. -/
structure Frame where
  data : List ℕ
  width : ℕ
  height : ℕ
deriving Repr, DecidableEq, Inhabited
/-- The frame-enhancement loop of src/src/worker/index.ts (lines 167–194):
for each adjacent pair of decoded frames, emit the original frame, then
(when `interpolationFactor > 1`) the `interpolationFactor - 1` blends at
ratios `j / interpolationFactor`; finally emit the very last frame.  A
`blendImages` failure propagates out, as a thrown error would. -/
def enhancedFrames (interpolationFactor : ℕ) (decodedFrames : List Frame) :
    Except String (List Frame) := do
  let frames ← (List.range (decodedFrames.length - 1)).foldlM
    (fun (acc : List Frame) i => do
      let currentFrame := decodedFrames.getD i default
      let nextFrame := decodedFrames.getD (i + 1) default
      let acc := acc ++ [currentFrame]
      if interpolationFactor > 1 then
        (List.range' 1 (interpolationFactor - 1)).foldlM
          (fun (acc2 : List Frame) (j : ℕ) => do
            let ratio : ℚ := (j : ℚ) / (interpolationFactor : ℚ)
            let blendedData ← blendImages currentFrame.data nextFrame.data ratio
            pure (acc2 ++ [⟨blendedData, currentFrame.width, currentFrame.height⟩]))
          acc
      else
        pure acc)
    []
  pure (frames ++ (match decodedFrames.getLast? with
    | some last => [last]
    | none => []))
/-! ## The arc-length resampler (src/src/worker/waypoints.ts) -/
/-- A geographic point (`RoutePoint` of src/src/shared/types.ts; the optional
display-only `address` field is omitted). -/
structure RoutePoint where
  lat : ℚ
  lng : ℚ
deriving Repr, DecidableEq, Inhabited
/-- The three external collaborators imported from `spherical-geometry-js`.
They are not part of this repository; the pipeline is embedded parametrically
over them and each theorem states the contracts it assumes of them. -/
structure SphericalGeo where
  computeDistanceBetween : RoutePoint → RoutePoint → ℚ
  computeHeading : RoutePoint → RoutePoint → ℚ
  interpolate : RoutePoint → RoutePoint → ℚ → RoutePoint
/-- `Waypoint` of src/src/worker/waypoints.ts: a route point plus a heading. -/
structure Waypoint where
  lat : ℚ
  lng : ℚ
  heading : ℚ
deriving Repr, DecidableEq, Inhabited
/-- The position carried by a waypoint. -/
def Waypoint.pos (w : Waypoint) : RoutePoint := ⟨w.lat, w.lng⟩
/-- One leg of a directions result; each step is represented by the point
sequence its polyline decodes to (the decoder itself is the external
`decode-google-map-polyline` collaborator; a step whose polyline is missing
or empty contributes the empty sequence). -/
structure Leg where
  steps : List (List RoutePoint)
deriving Repr, DecidableEq, Inhabited
/-- A route of a directions result (its list of legs). -/
structure DirectionsRoute where
  legs : List Leg
deriving Repr, DecidableEq, Inhabited
/-- The `DirectionsResult` shape consumed by `generateWaypoints`. -/
structure DirectionsResult where
  routes : List DirectionsRoute
deriving Repr, DecidableEq, Inhabited
/-- `route.routes[0]?.legs[0]` — the only leg the pipeline looks at. -/
def firstLeg (route : DirectionsResult) : Option Leg :=
  route.routes.head?.bind fun r => r.legs.head?
/-- Step 1 of `generateWaypoints`: decode all polylines of the leg into a
single continuous path (`allPoints = allPoints.concat(decodedPoints)`). -/
def flattenLeg (leg : Leg) : List RoutePoint :=
  leg.steps.foldl (fun acc pts => acc ++ pts) []
/-- The flattened point sequence of a route: empty when there is no first
leg, otherwise the concatenation of the leg's decoded step polylines. -/
def flattenRoute (route : DirectionsResult) : List RoutePoint :=
  match firstLeg route with
  | none => []
  | some leg => flattenLeg leg
/-- State of the resampling loop of `generateWaypoints`: the waypoints
emitted so far and the running `distanceAccumulator`.  The extra `divByZero`
flag instruments the embedding: it records whether the statement
`ratio = 1 - (overflow / segmentDistance)` was ever executed with
`segmentDistance = 0` (in JavaScript that division would produce `NaN`);
it influences nothing else. -/
structure RState where
  waypoints : List Waypoint
  distanceAccumulator : ℚ
  divByZero : Bool
deriving Repr, DecidableEq
/-- The inner `while (distanceAccumulator >= intervalDistance)` loop of
`generateWaypoints` for the segment `startPoint → endPoint`: emit an
interpolated waypoint at the exact fractional distance and carry the
overflow.  The conjunct `0 < intervalDistance` in the guard makes the
function total; for `intervalDistance ≤ 0` the JavaScript loop would not
terminate, and every theorem below assumes a positive interval. -/
def resampleWhile (g : SphericalGeo) (intervalDistance : ℚ)
    (startPoint endPoint : RoutePoint) (segmentDistance segmentHeading : ℚ)
    (s : RState) : RState :=
  if h : intervalDistance ≤ s.distanceAccumulator ∧ 0 < intervalDistance then
    let overflow := s.distanceAccumulator - intervalDistance
    let ratio := 1 - overflow / segmentDistance
    let newPoint := g.interpolate startPoint endPoint ratio
    resampleWhile g intervalDistance startPoint endPoint segmentDistance
      segmentHeading
      { waypoints := s.waypoints ++ [⟨newPoint.lat, newPoint.lng, segmentHeading⟩],
        distanceAccumulator := overflow,
        divByZero := s.divByZero || decide (segmentDistance = 0) }
  else s
termination_by (⌈s.distanceAccumulator / intervalDistance⌉).toNat
decreasing_by
  obtain ⟨hacc, hI⟩ := h
  have h2 : (s.distanceAccumulator - intervalDistance) / intervalDistance
      = s.distanceAccumulator / intervalDistance - 1 := by
    rw [sub_div, div_self (ne_of_gt hI)]
  have h3 : (1 : ℤ) ≤ ⌈s.distanceAccumulator / intervalDistance⌉ := by
    calc (1 : ℤ) = ⌈(1 : ℚ)⌉ := by norm_num
    _ ≤ _ := Int.ceil_le_ceil ((one_le_div hI).mpr hacc)
  simp only [h2, Int.ceil_sub_one]
  omega
/-- One iteration of the outer `for` loop of `generateWaypoints` over the
consecutive point pair `seg`: compute the segment's distance and heading,
push the path's first point as first waypoint if none has been emitted yet,
add the segment distance to the accumulator, and run the emission loop. -/
def resampleSegment (g : SphericalGeo) (intervalDistance : ℚ) (s : RState)
    (seg : RoutePoint × RoutePoint) : RState :=
  let startPoint := seg.1
  let endPoint := seg.2
  let segmentDistance := g.computeDistanceBetween startPoint endPoint
  let segmentHeading := g.computeHeading startPoint endPoint
  let s1 := if s.waypoints.isEmpty then
      { s with waypoints :=
          s.waypoints ++ [⟨startPoint.lat, startPoint.lng, segmentHeading⟩] }
    else s
  resampleWhile g intervalDistance startPoint endPoint segmentDistance
    segmentHeading
    { s1 with distanceAccumulator := s1.distanceAccumulator + segmentDistance }
/-- The whole resampling loop of `generateWaypoints` over the flattened
path, starting from no waypoints and a zero accumulator. -/
def resampleRun (g : SphericalGeo) (allPoints : List RoutePoint)
    (intervalDistance : ℚ) : RState :=
  (allPoints.zip allPoints.tail).foldl (resampleSegment g intervalDistance)
    ⟨[], 0, false⟩
/-- `generateWaypoints` of src/src/worker/waypoints.ts: flatten the first
leg's polylines, return `[]` for fewer than two points, otherwise resample
at `intervalDistance` and append the path's very last point, reusing the
previous waypoint's heading (`|| 0` when there is none). -/
def generateWaypoints (g : SphericalGeo) (route : DirectionsResult)
    (intervalDistance : ℚ) : List Waypoint :=
  match firstLeg route with
  | none => []
  | some leg =>
    let allPoints := flattenLeg leg
    if allPoints.length < 2 then []
    else
      let final := resampleRun g allPoints intervalDistance
      let lastPoint := allPoints.getD (allPoints.length - 1) default
      final.waypoints ++ [⟨lastPoint.lat, lastPoint.lng,
        match final.waypoints.getLast? with
        | some w => w.heading
        | none => 0⟩]
/-- Total path length: the sum of the segment distances the resampler
accumulates. -/
def pathLength (g : SphericalGeo) (pts : List RoutePoint) : ℚ :=
  ((pts.zip pts.tail).map fun pr => g.computeDistanceBetween pr.1 pr.2).sum
/-! ## Heading smoothing helpers (src/src/worker/waypoints - Copy.ts) -/
/-- Truncation toward zero, as in the JavaScript `%` remainder operator. -/
def ratTrunc (x : ℚ) : ℤ := if 0 ≤ x then ⌊x⌋ else ⌈x⌉
/-- The JavaScript remainder `a % n`: same sign as the dividend. -/
def jsMod (a n : ℚ) : ℚ := a - n * ratTrunc (a / n)
/-- The normalization pattern `((x % 360) + 360) % 360` used throughout
`blendHeadingsWithMomentum`. -/
def normalizeHeading (x : ℚ) : ℚ := jsMod (jsMod x 360 + 360) 360
/-- `smoothCubic` of src/src/worker/waypoints - Copy.ts:
`ease(t) = t² (3 - 2 t)`. -/
def smoothCubic (t : ℚ) : ℚ := t * t * (3 - 2 * t)
/-- `blendHeadingsWithMomentum` of src/src/worker/waypoints - Copy.ts
(lines 129–139): normalize both headings, wrap their difference into
[-180, 180] by the two sequential conditionals, ease the momentum through
`smoothCubic`, damp by `max(0.3, 1 - smoothness*0.1)` and re-normalize. -/
def blendHeadingsWithMomentum (heading1 heading2 momentum smoothness : ℚ) : ℚ :=
  let h1 := normalizeHeading heading1
  let h2 := normalizeHeading heading2
  let d0 := h2 - h1
  let d1 := if d0 > 180 then d0 - 360 else d0
  let diff := if d1 < -180 then d1 + 360 else d1
  let easedMomentum := smoothCubic momentum
  let smoothnessFactor := max (3/10 : ℚ) (1 - smoothness * (1/10))
  let blended := h1 + diff * easedMomentum * smoothnessFactor
  normalizeHeading blended
/-- The wrapped shortest-path angular difference computed inside
`blendHeadingsWithMomentum` (lines 130–134): the difference of the
normalized headings, folded into [-180, 180]. -/
def wrapDiff (heading1 heading2 : ℚ) : ℚ :=
  let d0 := normalizeHeading heading2 - normalizeHeading heading1
  let d1 := if d0 > 180 then d0 - 360 else d0
  if d1 < -180 then d1 + 360 else d1
/-- Modelled from the spec: the external `spherical-geometry-js`
collaborators (great-circle distance, bearing, spherical interpolation) are
not part of the repository, so witnesses and the C1 counterexample use this
concrete instantiation, faithful to the library contracts the spec relies
on: the distance is nonnegative and zero exactly on coincident points (a
taxicab distance scaled to metres — 111 for a 0.001° step at the equator,
matching the great-circle value there); the bearing lies in the library's
documented range [-180, 180), a due-west segment having bearing -90; the
interpolation is linear in each coordinate. -/
def testGeo : SphericalGeo where
  computeDistanceBetween p q := (|q.lat - p.lat| + |q.lng - p.lng|) * 111000
  computeHeading p q := if q.lng < p.lng then -90 else 0
  interpolate p q r := ⟨p.lat + (q.lat - p.lat) * r, p.lng + (q.lng - p.lng) * r⟩
/-- A geometry whose bearings are all 0 (due north); it satisfies the
[0, 360) bearing-range hypothesis of the amended C1 statement. -/
def northGeo : SphericalGeo where
  computeDistanceBetween p q := (|q.lat - p.lat| + |q.lng - p.lng|) * 111000
  computeHeading _ _ := 0
  interpolate p q r := ⟨p.lat + (q.lat - p.lat) * r, p.lng + (q.lng - p.lng) * r⟩
/-- A one-route, one-leg, one-step directions result describing a two-point
due-west segment: (0, 0) → (0, -0.001). -/
def westRoute : DirectionsResult :=
  ⟨[⟨[⟨[[⟨0, 0⟩, ⟨0, -1/1000⟩]]⟩]⟩]⟩

theorem jsRound_natCast (n : ℕ) : jsRound (n : ℚ) = (n : Int) := by
  unfold jsRound
  rw [Int.floor_eq_iff]
  constructor
  · push_cast
    linarith
  · push_cast
    linarith
theorem toUint8_of_lt {n : ℕ} (h : n < 256) : toUint8 (n : Int) = n := by
  unfold toUint8
  rw [Int.emod_eq_of_lt (by positivity) (by exact_mod_cast h)]
  simp
theorem blendChannel_zero (b1 b2 : List ℕ) (i : ℕ) (h : b1.getD i 0 < 256) :
    blendChannel b1 b2 0 i = b1.getD i 0 := by
  unfold blendChannel
  rw [show ((b1.getD i 0 : ℚ) * (1 - 0) + (b2.getD i 0 : ℚ) * 0 : ℚ)
        = (b1.getD i 0 : ℚ) by ring]
  rw [jsRound_natCast, toUint8_of_lt h]
theorem blendChannel_one (b1 b2 : List ℕ) (i : ℕ) (h : b2.getD i 0 < 256) :
    blendChannel b1 b2 1 i = b2.getD i 0 := by
  unfold blendChannel
  rw [show ((b1.getD i 0 : ℚ) * (1 - 1) + (b2.getD i 0 : ℚ) * 1 : ℚ)
        = (b2.getD i 0 : ℚ) by ring]
  rw [jsRound_natCast, toUint8_of_lt h]
theorem blendBodyStep_buffer1 (r : ℚ) (s : ImageBuffers) (i : ℕ) :
    (blendBodyStep r s i).buffer1 = s.buffer1 := rfl
theorem blendBodyStep_buffer2 (r : ℚ) (s : ImageBuffers) (i : ℕ) :
    (blendBodyStep r s i).buffer2 = s.buffer2 := rfl
theorem foldl_blendBodyStep_buffers (r : ℚ) (l : List ℕ) (s : ImageBuffers) :
    (l.foldl (blendBodyStep r) s).buffer1 = s.buffer1 ∧
    (l.foldl (blendBodyStep r) s).buffer2 = s.buffer2 := by
  induction l generalizing s with
  | nil => exact ⟨rfl, rfl⟩
  | cons i t ih => simpa [blendBodyStep] using ih (blendBodyStep r s i)
theorem foldl_blendBodyStep_newBuffer (r : ℚ) (l : List ℕ) (s : ImageBuffers) :
    (l.foldl (blendBodyStep r) s).newBuffer
      = l.foldl (writeGroup s.buffer1 s.buffer2 r) s.newBuffer := by
  induction l generalizing s with
  | nil => rfl
  | cons i t ih => simpa [blendBodyStep] using ih (blendBodyStep r s i)
theorem length_writeGroup (b1 b2 : List ℕ) (r : ℚ) (out : List ℕ) (i : ℕ) :
    (writeGroup b1 b2 r out i).length = out.length := by
  simp [writeGroup]
theorem getElem?_writeGroup_lt (b1 b2 : List ℕ) (r : ℚ) (out : List ℕ) (i p : ℕ)
    (h : p < i) : (writeGroup b1 b2 r out i)[p]? = out[p]? := by
  unfold writeGroup
  rw [List.getElem?_set_ne (by omega), List.getElem?_set_ne (by omega),
    List.getElem?_set_ne (by omega), List.getElem?_set_ne (by omega)]
theorem getElem?_writeGroup_ge (b1 b2 : List ℕ) (r : ℚ) (out : List ℕ) (i p : ℕ)
    (h : i + 4 ≤ p) : (writeGroup b1 b2 r out i)[p]? = out[p]? := by
  unfold writeGroup
  rw [List.getElem?_set_ne (by omega), List.getElem?_set_ne (by omega),
    List.getElem?_set_ne (by omega), List.getElem?_set_ne (by omega)]
theorem getElem?_writeGroup_mem (b1 b2 : List ℕ) (r : ℚ) (out : List ℕ) (i p : ℕ)
    (hi : i % 4 = 0) (h1 : i ≤ p) (h2 : p < i + 4) (hp : p < out.length) :
    (writeGroup b1 b2 r out i)[p]? = some (blendValue b1 b2 r p) := by
  obtain ⟨k, hk, rfl⟩ : ∃ k, k < 4 ∧ p = i + k := ⟨p - i, by omega, by omega⟩
  unfold writeGroup blendValue
  interval_cases k
  · simp only [Nat.add_zero] at hp ⊢
    rw [List.getElem?_set_ne (by omega), List.getElem?_set_ne (by omega),
      List.getElem?_set_ne (by omega),
      List.getElem?_set_self (by simpa using hp)]
    have h3 : ¬ i % 4 = 3 := by omega
    rw [if_neg h3]
  · rw [List.getElem?_set_ne (by omega), List.getElem?_set_ne (by omega),
      List.getElem?_set_self (by simpa using hp)]
    have h3 : ¬ (i + 1) % 4 = 3 := by omega
    rw [if_neg h3]
  · rw [List.getElem?_set_ne (by omega),
      List.getElem?_set_self (by simpa using hp)]
    have h3 : ¬ (i + 2) % 4 = 3 := by omega
    rw [if_neg h3]
  · rw [List.getElem?_set_self (by simpa using hp)]
    have h3 : (i + 3) % 4 = 3 := by omega
    rw [if_pos h3]
theorem foldl_writeGroup_spec (b1 b2 : List ℕ) (r : ℚ) (g : ℕ) :
    ∀ (i : ℕ) (out : List ℕ), i % 4 = 0 →
      ((List.range' i g 4).foldl (writeGroup b1 b2 r) out).length = out.length ∧
      ∀ p, ((List.range' i g 4).foldl (writeGroup b1 b2 r) out)[p]?
        = if i ≤ p ∧ p < i + 4 * g ∧ p < out.length
          then some (blendValue b1 b2 r p) else out[p]? := by
  induction g with
  | zero =>
    intro i out _
    refine ⟨rfl, fun p => ?_⟩
    rw [if_neg (by omega : ¬ (i ≤ p ∧ p < i + 4 * 0 ∧ p < out.length))]
    rfl
  | succ g ih =>
    intro i out hi
    rw [List.range'_succ]
    simp only [List.foldl_cons]
    obtain ⟨ihlen, ihget⟩ := ih (i + 4) (writeGroup b1 b2 r out i) (by omega)
    refine ⟨by rw [ihlen, length_writeGroup], fun p => ?_⟩
    rw [ihget p, length_writeGroup]
    by_cases hcase : i + 4 ≤ p ∧ p < i + 4 + 4 * g ∧ p < out.length
    · rw [if_pos hcase, if_pos (by omega)]
    · rw [if_neg hcase]
      by_cases hmem : i ≤ p ∧ p < i + 4 ∧ p < out.length
      · rw [getElem?_writeGroup_mem b1 b2 r out i p hi hmem.1 hmem.2.1 hmem.2.2,
          if_pos (by omega)]
      · have hout : (writeGroup b1 b2 r out i)[p]? = out[p]? := by
          by_cases hlt : p < i
          · exact getElem?_writeGroup_lt b1 b2 r out i p hlt
          · by_cases hge : i + 4 ≤ p
            · exact getElem?_writeGroup_ge b1 b2 r out i p hge
            · -- i ≤ p < i + 4 but p ≥ out.length: all four stores miss
              have hplen : out.length ≤ p := by omega
              rw [List.getElem?_eq_none (by simp [length_writeGroup]; omega),
                List.getElem?_eq_none hplen]
        rw [hout, if_neg (by omega)]
theorem blendRun_newBuffer (b1 b2 : List ℕ) (r : ℚ) :
    (blendRun b1 b2 r).newBuffer
      = (List.range b1.length).map (blendValue b1 b2 r) := by
  unfold blendRun
  rw [foldl_blendBodyStep_newBuffer]
  obtain ⟨hlen, hget⟩ :=
    foldl_writeGroup_spec b1 b2 r ((b1.length + 3) / 4) 0
      (List.replicate b1.length 0) (by omega)
  apply List.ext_getElem?
  intro p
  rw [hget p]
  have hceil : b1.length ≤ 4 * ((b1.length + 3) / 4) := by
    have h4 := Nat.div_add_mod (b1.length + 3) 4
    have := Nat.mod_lt (b1.length + 3) (show 0 < 4 by omega)
    omega
  by_cases hp : p < b1.length
  · rw [if_pos (by simp; omega)]
    rw [List.getElem?_map, List.getElem?_range hp]
    rfl
  · rw [if_neg (by simp; omega)]
    rw [List.getElem?_eq_none (by simpa using hp),
      List.getElem?_eq_none (by simp; omega)]
theorem blendRun_buffer1 (b1 b2 : List ℕ) (r : ℚ) :
    (blendRun b1 b2 r).buffer1 = b1 :=
  (foldl_blendBodyStep_buffers r _ _).1
theorem blendRun_buffer2 (b1 b2 : List ℕ) (r : ℚ) :
    (blendRun b1 b2 r).buffer2 = b2 :=
  (foldl_blendBodyStep_buffers r _ _).2
theorem map_range_getD (l : List ℕ) :
    (List.range l.length).map (fun p => l.getD p 0) = l := by
  apply List.ext_getElem (by simp)
  intro i h1 h2
  simp [List.getD_eq_getElem?_getD, List.getElem?_eq_getElem h2]
theorem blendImages_eq_ok (b1 b2 : List ℕ) (r : ℚ) (hlen : b1.length = b2.length) :
    blendImages b1 b2 r
      = Except.ok ((List.range b1.length).map (blendValue b1 b2 r)) := by
  unfold blendImages
  rw [if_neg (by omega), blendRun_newBuffer]
theorem getD_lt_of_mem_bound {l : List ℕ} (hb : ∀ x ∈ l, x < 256) {p : ℕ}
    (hp : p < l.length) : l.getD p 0 < 256 := by
  rw [List.getD_eq_getElem l 0 hp]
  exact hb _ (List.getElem_mem hp)
/-- C3: `blendImages` fails with the buffer-length-mismatch error if and only
if the two buffers differ in byte length; with equal lengths it returns
normally (an `Except.ok` result), for every ratio. -/
theorem blendImages_error_iff (b1 b2 : List ℕ) (r : ℚ) :
    (blendImages b1 b2 r
        = Except.error "Buffers must have the same length to be blended."
      ↔ b1.length ≠ b2.length) ∧
    ((∃ out, blendImages b1 b2 r = Except.ok out) ↔ b1.length = b2.length) := by
  constructor
  · constructor
    · intro h hlen
      rw [blendImages_eq_ok b1 b2 r hlen] at h
      exact Except.noConfusion h
    · intro hne
      unfold blendImages
      rw [if_pos hne]
  · constructor
    · rintro ⟨out, hout⟩
      by_contra hne
      unfold blendImages at hout
      rw [if_pos hne] at hout
      exact Except.noConfusion hout
    · intro hlen
      exact ⟨_, blendImages_eq_ok b1 b2 r hlen⟩
/-- C2 counterexample: at ratio 1 the alpha byte (offset 3) is copied from the
first buffer, so the result is not byte-for-byte identical to the second
buffer when the alpha bytes differ. -/
theorem blendImages_ratio_one_ne_second :
    blendImages [1, 2, 3, 4] [5, 6, 7, 8] 1 = Except.ok [5, 6, 7, 4] ∧
    ([5, 6, 7, 4] : List ℕ) ≠ [5, 6, 7, 8] := by
  constructor
  · rw [blendImages_eq_ok [1, 2, 3, 4] [5, 6, 7, 8] 1 rfl]
    congr 1
    rw [show List.range ([1, 2, 3, 4] : List ℕ).length = [0, 1, 2, 3] from rfl]
    simp only [List.map_cons, List.map_nil, blendValue, if_true]
    rw [blendChannel_one _ _ 0 (by decide), blendChannel_one _ _ 1 (by decide),
      blendChannel_one _ _ 2 (by decide)]
    decide
  · decide
/-- C2 (amended): with equal-length byte buffers, blending at ratio 0 returns
a buffer identical to the first input; blending at ratio 1 returns the second
input's RGB bytes with the alpha bytes copied from the first input, hence a
buffer identical to the second input whenever the two agree on every alpha
byte. -/
theorem blendImages_ratio_zero_one (b1 b2 : List ℕ)
    (hlen : b1.length = b2.length)
    (hb1 : ∀ x ∈ b1, x < 256) (hb2 : ∀ x ∈ b2, x < 256) :
    blendImages b1 b2 0 = Except.ok b1 ∧
    ((∀ p, p % 4 = 3 → p < b1.length → b1.getD p 0 = b2.getD p 0) →
      blendImages b1 b2 1 = Except.ok b2) := by
  constructor
  · rw [blendImages_eq_ok b1 b2 0 hlen]
    congr 1
    calc (List.range b1.length).map (blendValue b1 b2 0)
        = (List.range b1.length).map (fun p => b1.getD p 0) := by
          apply List.map_congr_left
          intro p hp
          rw [List.mem_range] at hp
          unfold blendValue
          by_cases h3 : p % 4 = 3
          · rw [if_pos h3]
          · rw [if_neg h3, blendChannel_zero b1 b2 p (getD_lt_of_mem_bound hb1 hp)]
      _ = b1 := map_range_getD b1
  · intro halpha
    rw [blendImages_eq_ok b1 b2 1 hlen]
    congr 1
    calc (List.range b1.length).map (blendValue b1 b2 1)
        = (List.range b1.length).map (fun p => b2.getD p 0) := by
          apply List.map_congr_left
          intro p hp
          rw [List.mem_range] at hp
          unfold blendValue
          by_cases h3 : p % 4 = 3
          · rw [if_pos h3]
            exact halpha p h3 hp
          · rw [if_neg h3,
              blendChannel_one b1 b2 p (getD_lt_of_mem_bound hb2 (hlen ▸ hp))]
      _ = b2 := by rw [hlen, map_range_getD b2]
theorem blendImages_ratio_zero_one_witness :
    ([1, 2, 3, 4] : List ℕ).length = ([5, 6, 7, 4] : List ℕ).length ∧
    (∀ x ∈ ([1, 2, 3, 4] : List ℕ), x < 256) ∧
    (∀ x ∈ ([5, 6, 7, 4] : List ℕ), x < 256) ∧
    blendImages [1, 2, 3, 4] [5, 6, 7, 4] 0 = Except.ok [1, 2, 3, 4] ∧
    blendImages [1, 2, 3, 4] [5, 6, 7, 4] 1 = Except.ok [5, 6, 7, 4] :=
  ⟨rfl, by decide, by decide,
    (blendImages_ratio_zero_one [1, 2, 3, 4] [5, 6, 7, 4] rfl (by decide)
      (by decide)).1,
    (blendImages_ratio_zero_one [1, 2, 3, 4] [5, 6, 7, 4] rfl (by decide)
      (by decide)).2
      (by intro p h3 hlt
          simp only [List.length_cons, List.length_nil] at hlt
          interval_cases p <;> revert h3 <;> decide)⟩
/-- C10: `blendImages` on equal-length buffers leaves both input buffers
unchanged through the whole loop (the loop state's `buffer1`/`buffer2`
components come out equal to the inputs), and returns a fresh `Except.ok`
output buffer whose byte length equals that of the first input. -/
theorem blendImages_fresh_output (b1 b2 : List ℕ) (r : ℚ)
    (hlen : b1.length = b2.length) :
    (blendRun b1 b2 r).buffer1 = b1 ∧
    (blendRun b1 b2 r).buffer2 = b2 ∧
    ∃ out, blendImages b1 b2 r = Except.ok out ∧ out.length = b1.length := by
  refine ⟨blendRun_buffer1 b1 b2 r, blendRun_buffer2 b1 b2 r,
    (List.range b1.length).map (blendValue b1 b2 r),
    blendImages_eq_ok b1 b2 r hlen, by simp⟩
theorem blendImages_fresh_output_witness :
    ([9, 8, 7, 6] : List ℕ).length = ([0, 1, 2, 3] : List ℕ).length ∧
    (blendRun [9, 8, 7, 6] [0, 1, 2, 3] (1/2)).buffer1 = [9, 8, 7, 6] ∧
    (blendRun [9, 8, 7, 6] [0, 1, 2, 3] (1/2)).buffer2 = [0, 1, 2, 3] ∧
    ∃ out, blendImages [9, 8, 7, 6] [0, 1, 2, 3] (1/2) = Except.ok out ∧
      out.length = ([9, 8, 7, 6] : List ℕ).length :=
  ⟨rfl, (blendImages_fresh_output [9, 8, 7, 6] [0, 1, 2, 3] (1/2) rfl).1,
    (blendImages_fresh_output [9, 8, 7, 6] [0, 1, 2, 3] (1/2) rfl).2.1,
    (blendImages_fresh_output [9, 8, 7, 6] [0, 1, 2, 3] (1/2) rfl).2.2⟩
theorem exceptBind_eq_ok {ε α β : Type} {x : Except ε α} {f : α → Except ε β}
    {b : β} (h : x >>= f = Except.ok b) :
    ∃ a, x = Except.ok a ∧ f a = Except.ok b := by
  cases x with
  | error e => exact absurd h (by simp [Bind.bind, Except.bind])
  | ok a => exact ⟨a, rfl, by simpa [Bind.bind, Except.bind] using h⟩
/-- C8: with `frameInterpolation = 3` on two frames of equal byte size the
enhanced sequence is exactly `[A, blend(A,B,1/3), blend(A,B,2/3), B]`; and for
every factor and every frame sequence, a successful run emits the final
original frame last. -/
theorem enhancedFrames_spec :
    (∀ A B : Frame, A.data.length = B.data.length →
      ∃ f1 f2, blendImages A.data B.data (1/3) = Except.ok f1 ∧
        blendImages A.data B.data (2/3) = Except.ok f2 ∧
        enhancedFrames 3 [A, B] =
          Except.ok [A, ⟨f1, A.width, A.height⟩, ⟨f2, A.width, A.height⟩, B]) ∧
    (∀ (factor : ℕ) (frames out : List Frame), frames ≠ [] →
      enhancedFrames factor frames = Except.ok out →
      out.getLast? = frames.getLast?) := by
  constructor
  · intro A B hlen
    refine ⟨(List.range A.data.length).map (blendValue A.data B.data (1/3)),
      (List.range A.data.length).map (blendValue A.data B.data (2/3)),
      blendImages_eq_ok _ _ _ hlen, blendImages_eq_ok _ _ _ hlen, ?_⟩
    have h13 : blendImages A.data B.data (((1 : ℕ) : ℚ) / ((3 : ℕ) : ℚ))
        = Except.ok ((List.range A.data.length).map (blendValue A.data B.data (1/3))) := by
      rw [show (((1 : ℕ) : ℚ) / ((3 : ℕ) : ℚ)) = 1/3 by norm_num]
      exact blendImages_eq_ok _ _ _ hlen
    have h23 : blendImages A.data B.data (((2 : ℕ) : ℚ) / ((3 : ℕ) : ℚ))
        = Except.ok ((List.range A.data.length).map (blendValue A.data B.data (2/3))) := by
      rw [show (((2 : ℕ) : ℚ) / ((3 : ℕ) : ℚ)) = 2/3 by norm_num]
      exact blendImages_eq_ok _ _ _ hlen
    simp only [enhancedFrames, List.length_cons, List.length_nil]
    rw [show (0 + 1 + 1 - 1 : ℕ) = 1 from rfl, show List.range 1 = [0] from rfl,
      show (3 - 1 : ℕ) = 2 from rfl, show List.range' 1 2 = [1, 2] from rfl]
    simp only [List.foldlM_cons, List.foldlM_nil, List.getD_cons_zero,
      List.getD_cons_succ, if_pos (show (3 : ℕ) > 1 by norm_num)]
    rw [h13, h23]
    simp only [Bind.bind, Except.bind, pure, Except.pure]
    rfl
  · intro factor frames out hne hout
    match hlast : frames.getLast? with
    | none => exact absurd (List.getLast?_eq_none_iff.mp hlast) hne
    | some last =>
      unfold enhancedFrames at hout
      obtain ⟨body, _, hpure⟩ := exceptBind_eq_ok hout
      rw [hlast] at hpure
      simp only [pure, Except.pure, Except.ok.injEq] at hpure
      rw [← hpure]
      exact List.getLast?_concat body
theorem jsMod_nonneg_lt (a n : ℚ) (ha : 0 ≤ a) (hn : 0 < n) :
    0 ≤ jsMod a n ∧ jsMod a n < n := by
  unfold jsMod ratTrunc
  rw [if_pos (by positivity)]
  have hda : a / n * n = a := div_mul_cancel₀ a (ne_of_gt hn)
  have hfl : (⌊a / n⌋ : ℚ) ≤ a / n := Int.floor_le _
  have hfl2 : a / n < ⌊a / n⌋ + 1 := Int.lt_floor_add_one _
  constructor
  · have := mul_le_mul_of_nonneg_right hfl (le_of_lt hn)
    nlinarith
  · have := mul_lt_mul_of_pos_right hfl2 hn
    nlinarith
theorem jsMod_bounds (a n : ℚ) (hn : 0 < n) : -n < jsMod a n ∧ jsMod a n < n := by
  by_cases ha : 0 ≤ a
  · obtain ⟨h1, h2⟩ := jsMod_nonneg_lt a n ha hn
    exact ⟨by linarith, h2⟩
  · push_neg at ha
    unfold jsMod ratTrunc
    rw [if_neg (not_le.mpr (div_neg_of_neg_of_pos ha hn))]
    have hda : a / n * n = a := div_mul_cancel₀ a (ne_of_gt hn)
    have hcl : a / n ≤ (⌈a / n⌉ : ℚ) := Int.le_ceil _
    have hcl2 : (⌈a / n⌉ : ℚ) < a / n + 1 := Int.ceil_lt_add_one _
    constructor
    · have := mul_lt_mul_of_pos_right hcl2 hn
      nlinarith
    · have := mul_le_mul_of_nonneg_right hcl (le_of_lt hn)
      nlinarith
theorem normalizeHeading_mem (x : ℚ) :
    0 ≤ normalizeHeading x ∧ normalizeHeading x < 360 := by
  unfold normalizeHeading
  obtain ⟨h1, h2⟩ := jsMod_bounds x 360 (by norm_num)
  exact jsMod_nonneg_lt _ 360 (by linarith) (by norm_num)
theorem jsMod_add_int_mul (a n : ℚ) : ∃ k : ℤ, jsMod a n = a + n * k :=
  ⟨-ratTrunc (a / n), by unfold jsMod; push_cast; ring⟩
theorem normalizeHeading_congr (x : ℚ) :
    ∃ k : ℤ, normalizeHeading x = x + 360 * k := by
  unfold normalizeHeading
  obtain ⟨k1, hk1⟩ := jsMod_add_int_mul x 360
  obtain ⟨k2, hk2⟩ := jsMod_add_int_mul (jsMod x 360 + 360) 360
  exact ⟨k1 + 1 + k2, by rw [hk2, hk1]; push_cast; ring⟩
theorem wrapDiff_bounds (h1 h2 : ℚ) :
    -180 ≤ wrapDiff h1 h2 ∧ wrapDiff h1 h2 ≤ 180 := by
  simp only [wrapDiff]
  obtain ⟨ha1, ha2⟩ := normalizeHeading_mem h1
  obtain ⟨hb1, hb2⟩ := normalizeHeading_mem h2
  by_cases hgt : normalizeHeading h2 - normalizeHeading h1 > 180
  · rw [if_pos hgt, if_neg (by linarith)]
    constructor <;> linarith
  · rw [if_neg hgt]
    by_cases hlt : normalizeHeading h2 - normalizeHeading h1 < -180
    · rw [if_pos hlt]
      constructor <;> linarith
    · rw [if_neg hlt]
      constructor <;> linarith
theorem wrapDiff_congr (h1 h2 : ℚ) :
    ∃ k : ℤ, wrapDiff h1 h2 = (h2 - h1) + 360 * k := by
  simp only [wrapDiff]
  obtain ⟨k1, hk1⟩ := normalizeHeading_congr h1
  obtain ⟨k2, hk2⟩ := normalizeHeading_congr h2
  by_cases hgt : normalizeHeading h2 - normalizeHeading h1 > 180
  · rw [if_pos hgt, if_neg (by
      obtain ⟨ha1, ha2⟩ := normalizeHeading_mem h1
      obtain ⟨hb1, hb2⟩ := normalizeHeading_mem h2
      linarith)]
    exact ⟨k2 - k1 - 1, by rw [hk2, hk1]; push_cast; ring⟩
  · rw [if_neg hgt]
    by_cases hlt : normalizeHeading h2 - normalizeHeading h1 < -180
    · rw [if_pos hlt]
      exact ⟨k2 - k1 + 1, by rw [hk2, hk1]; push_cast; ring⟩
    · rw [if_neg hlt]
      exact ⟨k2 - k1, by rw [hk2, hk1]; push_cast; ring⟩
/-- C9: `blendHeadingsWithMomentum` blends along the shortest angular path —
the wrapped difference is within [-180, 180] and congruent to `h2 - h1`
modulo 360 — applying the momentum eased through `smoothCubic` and the
damping factor `max(0.3, 1 - smoothness*0.1)` to it, and the result is
normalized into [0, 360). -/
theorem blendHeadingsWithMomentum_spec (h1 h2 m s : ℚ) :
    (∃ k : ℤ, wrapDiff h1 h2 = (h2 - h1) + 360 * k) ∧
    -180 ≤ wrapDiff h1 h2 ∧ wrapDiff h1 h2 ≤ 180 ∧
    blendHeadingsWithMomentum h1 h2 m s
      = normalizeHeading (normalizeHeading h1
          + wrapDiff h1 h2 * smoothCubic m * max (3/10 : ℚ) (1 - s * (1/10))) ∧
    0 ≤ blendHeadingsWithMomentum h1 h2 m s ∧
    blendHeadingsWithMomentum h1 h2 m s < 360 := by
  refine ⟨wrapDiff_congr h1 h2, (wrapDiff_bounds h1 h2).1,
    (wrapDiff_bounds h1 h2).2, rfl, ?_, ?_⟩
  · exact (normalizeHeading_mem _).1
  · exact (normalizeHeading_mem _).2
/-! ## Properties of the resampling loop -/
theorem head?_append_left {α : Type} (l t : List α) (h : l ≠ []) :
    (l ++ t).head? = l.head? := by
  cases l with
  | nil => exact absurd rfl h
  | cons a l => rfl
theorem resampleWhile_of_lt (g : SphericalGeo) (I : ℚ) (sp ep : RoutePoint)
    (segd segh : ℚ) (s : RState) (h : s.distanceAccumulator < I) :
    resampleWhile g I sp ep segd segh s = s := by
  rw [resampleWhile, dif_neg (fun hc => absurd hc.1 (not_le.mpr h))]
theorem resampleWhile_spec (g : SphericalGeo) (I : ℚ) (sp ep : RoutePoint)
    (segd segh : ℚ) (hI : 0 < I) (s : RState) :
    ∃ ts : List Waypoint,
      (resampleWhile g I sp ep segd segh s).waypoints = s.waypoints ++ ts ∧
      (∀ w ∈ ts, w.heading = segh) ∧
      (resampleWhile g I sp ep segd segh s).distanceAccumulator
        = s.distanceAccumulator - ts.length * I ∧
      (resampleWhile g I sp ep segd segh s).distanceAccumulator < I ∧
      (0 ≤ s.distanceAccumulator →
        0 ≤ (resampleWhile g I sp ep segd segh s).distanceAccumulator) ∧
      (s.divByZero = false → (segd ≠ 0 ∨ s.distanceAccumulator < I) →
        (resampleWhile g I sp ep segd segh s).divByZero = false) := by
  generalize hn : (⌈s.distanceAccumulator / I⌉).toNat = n
  induction n using Nat.strong_induction_on generalizing s with
  | _ n ihn =>
    by_cases hcond : I ≤ s.distanceAccumulator ∧ 0 < I
    · have hstep : resampleWhile g I sp ep segd segh s
          = resampleWhile g I sp ep segd segh
            ⟨s.waypoints ++ [⟨(g.interpolate sp ep
                (1 - (s.distanceAccumulator - I) / segd)).lat,
              (g.interpolate sp ep
                (1 - (s.distanceAccumulator - I) / segd)).lng, segh⟩],
              s.distanceAccumulator - I, s.divByZero || decide (segd = 0)⟩ := by
        rw [resampleWhile, dif_pos hcond]
      have hmeas : (⌈(s.distanceAccumulator - I) / I⌉).toNat
          < (⌈s.distanceAccumulator / I⌉).toNat := by
        have h2 : (s.distanceAccumulator - I) / I
            = s.distanceAccumulator / I - 1 := by
          rw [sub_div, div_self (ne_of_gt hcond.2)]
        have h3 : (1 : ℤ) ≤ ⌈s.distanceAccumulator / I⌉ := by
          calc (1 : ℤ) = ⌈(1 : ℚ)⌉ := by norm_num
          _ ≤ _ := Int.ceil_le_ceil ((one_le_div hcond.2).mpr hcond.1)
        rw [h2, Int.ceil_sub_one]
        omega
      obtain ⟨ts, hw, hh, hacc, hlt, hnn, hflag⟩ :=
        ihn _ (hn ▸ hmeas)
          ⟨s.waypoints ++ [⟨(g.interpolate sp ep
              (1 - (s.distanceAccumulator - I) / segd)).lat,
            (g.interpolate sp ep
              (1 - (s.distanceAccumulator - I) / segd)).lng, segh⟩],
            s.distanceAccumulator - I, s.divByZero || decide (segd = 0)⟩ rfl
      rw [hstep]
      refine ⟨⟨(g.interpolate sp ep
          (1 - (s.distanceAccumulator - I) / segd)).lat,
        (g.interpolate sp ep
          (1 - (s.distanceAccumulator - I) / segd)).lng, segh⟩ :: ts,
        ?_, ?_, ?_, ?_, ?_, ?_⟩
      · rw [hw]
        simp
      · intro w hwmem
        rcases List.mem_cons.mp hwmem with h' | h'
        · rw [h']
        · exact hh w h'
      · rw [hacc]
        simp only [List.length_cons]
        push_cast
        ring
      · exact hlt
      · intro _
        exact hnn (by
          show (0 : ℚ) ≤ s.distanceAccumulator - I
          linarith [hcond.1])
      · intro hdz hcase
        have hsegd : segd ≠ 0 := by
          rcases hcase with h' | h'
          · exact h'
          · exact absurd hcond.1 (not_le.mpr h')
        refine hflag ?_ (Or.inl hsegd)
        show (s.divByZero || decide (segd = 0)) = false
        rw [hdz, Bool.false_or, decide_eq_false hsegd]
    · have hid : resampleWhile g I sp ep segd segh s = s := by
        rw [resampleWhile, dif_neg hcond]
      rw [hid]
      refine ⟨[], by simp, by simp, by simp, ?_, fun h' => h', fun h' _ => h'⟩
      rcases not_and_or.mp hcond with h' | h'
      · exact not_le.mp h'
      · exact absurd hI h'
theorem resampleSegment_spec (g : SphericalGeo) (I : ℚ) (hI : 0 < I)
    (s : RState) (seg : RoutePoint × RoutePoint) (hne : s.waypoints ≠ []) :
    ∃ ts : List Waypoint,
      (resampleSegment g I s seg).waypoints = s.waypoints ++ ts ∧
      (∀ w ∈ ts, w.heading = g.computeHeading seg.1 seg.2) ∧
      (resampleSegment g I s seg).distanceAccumulator
        = s.distanceAccumulator + g.computeDistanceBetween seg.1 seg.2
          - ts.length * I ∧
      (resampleSegment g I s seg).distanceAccumulator < I ∧
      (0 ≤ s.distanceAccumulator →
        0 ≤ g.computeDistanceBetween seg.1 seg.2 →
        0 ≤ (resampleSegment g I s seg).distanceAccumulator) ∧
      (s.divByZero = false → s.distanceAccumulator < I →
        (resampleSegment g I s seg).divByZero = false) := by
  simp only [resampleSegment]
  rw [if_neg (by simpa [List.isEmpty_iff] using hne)]
  obtain ⟨ts, hw, hh, hacc, hlt, hnn, hflag⟩ :=
    resampleWhile_spec g I seg.1 seg.2
      (g.computeDistanceBetween seg.1 seg.2)
      (g.computeHeading seg.1 seg.2) hI
      ⟨s.waypoints, s.distanceAccumulator
        + g.computeDistanceBetween seg.1 seg.2, s.divByZero⟩
  refine ⟨ts, hw, hh, by rw [hacc], hlt, fun h1 h2 => hnn (by
    show 0 ≤ s.distanceAccumulator + g.computeDistanceBetween seg.1 seg.2
    linarith), ?_⟩
  intro hdz haccs
  apply hflag hdz
  by_cases hsegd : g.computeDistanceBetween seg.1 seg.2 = 0
  · refine Or.inr ?_
    show s.distanceAccumulator + g.computeDistanceBetween seg.1 seg.2 < I
    rw [hsegd, add_zero]
    exact haccs
  · exact Or.inl hsegd
theorem resampleSegment_init (g : SphericalGeo) (I : ℚ) (hI : 0 < I)
    (seg : RoutePoint × RoutePoint) :
    ∃ ts : List Waypoint,
      (resampleSegment g I ⟨[], 0, false⟩ seg).waypoints
        = ⟨seg.1.lat, seg.1.lng, g.computeHeading seg.1 seg.2⟩ :: ts ∧
      (∀ w ∈ ts, w.heading = g.computeHeading seg.1 seg.2) ∧
      (resampleSegment g I ⟨[], 0, false⟩ seg).distanceAccumulator
        = g.computeDistanceBetween seg.1 seg.2 - ts.length * I ∧
      (resampleSegment g I ⟨[], 0, false⟩ seg).distanceAccumulator < I ∧
      (0 ≤ g.computeDistanceBetween seg.1 seg.2 →
        0 ≤ (resampleSegment g I ⟨[], 0, false⟩ seg).distanceAccumulator) ∧
      (resampleSegment g I ⟨[], 0, false⟩ seg).divByZero = false := by
  simp only [resampleSegment]
  rw [if_pos (show ([] : List Waypoint).isEmpty = true from rfl)]
  obtain ⟨ts, hw, hh, hacc, hlt, hnn, hflag⟩ :=
    resampleWhile_spec g I seg.1 seg.2
      (g.computeDistanceBetween seg.1 seg.2)
      (g.computeHeading seg.1 seg.2) hI
      ⟨[] ++ [⟨seg.1.lat, seg.1.lng, g.computeHeading seg.1 seg.2⟩],
        0 + g.computeDistanceBetween seg.1 seg.2, false⟩
  refine ⟨ts, by simpa using hw, hh, by rw [hacc]; show 0 + _ - _ = _; ring, hlt,
    fun h1 => hnn (by
      show (0:ℚ) ≤ 0 + g.computeDistanceBetween seg.1 seg.2
      linarith), ?_⟩
  apply hflag rfl
  by_cases hsegd : g.computeDistanceBetween seg.1 seg.2 = 0
  · refine Or.inr ?_
    show (0:ℚ) + g.computeDistanceBetween seg.1 seg.2 < I
    rw [hsegd, add_zero]
    exact hI
  · exact Or.inl hsegd
theorem resampleSegment_acc_flag (g : SphericalGeo) (I : ℚ) (hI : 0 < I)
    (s : RState) (seg : RoutePoint × RoutePoint)
    (hacc : s.distanceAccumulator < I) (hflag : s.divByZero = false) :
    (resampleSegment g I s seg).distanceAccumulator < I ∧
    (resampleSegment g I s seg).divByZero = false := by
  simp only [resampleSegment]
  have key : ∀ wps : List Waypoint,
      (resampleWhile g I seg.1 seg.2
        (g.computeDistanceBetween seg.1 seg.2)
        (g.computeHeading seg.1 seg.2)
        ⟨wps, s.distanceAccumulator + g.computeDistanceBetween seg.1 seg.2,
          s.divByZero⟩).distanceAccumulator < I ∧
      (resampleWhile g I seg.1 seg.2
        (g.computeDistanceBetween seg.1 seg.2)
        (g.computeHeading seg.1 seg.2)
        ⟨wps, s.distanceAccumulator + g.computeDistanceBetween seg.1 seg.2,
          s.divByZero⟩).divByZero = false := by
    intro wps
    obtain ⟨ts, hw, hh, hacc', hlt, hnn, hflag'⟩ :=
      resampleWhile_spec g I seg.1 seg.2
        (g.computeDistanceBetween seg.1 seg.2)
        (g.computeHeading seg.1 seg.2) hI
        ⟨wps, s.distanceAccumulator + g.computeDistanceBetween seg.1 seg.2,
          s.divByZero⟩
    refine ⟨hlt, hflag' hflag ?_⟩
    by_cases hsegd : g.computeDistanceBetween seg.1 seg.2 = 0
    · refine Or.inr ?_
      show s.distanceAccumulator + g.computeDistanceBetween seg.1 seg.2 < I
      rw [hsegd, add_zero]
      exact hacc
    · exact Or.inl hsegd
  by_cases hempty : s.waypoints.isEmpty
  · rw [if_pos hempty]
    exact key _
  · rw [if_neg hempty]
    exact key _
theorem resampleSegment_zero (g : SphericalGeo) (I : ℚ) (s : RState)
    (p : RoutePoint) (hI : 0 < I) (hne : s.waypoints ≠ [])
    (hacc : s.distanceAccumulator < I)
    (hdist : g.computeDistanceBetween p p = 0) :
    resampleSegment g I s (p, p) = s := by
  simp only [resampleSegment]
  rw [if_neg (by simpa [List.isEmpty_iff] using hne)]
  simp only [hdist, add_zero]
  exact resampleWhile_of_lt g I p p 0 (g.computeHeading p p) s hacc
theorem foldl_resampleSegment_append (g : SphericalGeo) (I : ℚ) (hI : 0 < I)
    (segs : List (RoutePoint × RoutePoint)) :
    ∀ s : RState, s.waypoints ≠ [] →
      ∃ ts : List Waypoint,
        (segs.foldl (resampleSegment g I) s).waypoints = s.waypoints ++ ts ∧
        ∀ w ∈ ts, ∃ p q, w.heading = g.computeHeading p q := by
  induction segs with
  | nil =>
    intro s _
    exact ⟨[], by simp, by simp⟩
  | cons seg rest ih =>
    intro s hne
    obtain ⟨ts1, hw1, hh1, _, _, _, _⟩ := resampleSegment_spec g I hI s seg hne
    obtain ⟨ts2, hw2, hh2⟩ := ih (resampleSegment g I s seg) (by
      rw [hw1]
      simp [hne])
    refine ⟨ts1 ++ ts2, ?_, ?_⟩
    · rw [List.foldl_cons, hw2, hw1, List.append_assoc]
    · intro w hw
      rcases List.mem_append.mp hw with h' | h'
      · exact ⟨seg.1, seg.2, hh1 w h'⟩
      · exact hh2 w h'
theorem foldl_resampleSegment_acc_flag (g : SphericalGeo) (I : ℚ) (hI : 0 < I)
    (segs : List (RoutePoint × RoutePoint)) :
    ∀ s : RState, s.distanceAccumulator < I → s.divByZero = false →
      (segs.foldl (resampleSegment g I) s).distanceAccumulator < I ∧
      (segs.foldl (resampleSegment g I) s).divByZero = false := by
  induction segs with
  | nil =>
    intro s hacc hflag
    exact ⟨hacc, hflag⟩
  | cons seg rest ih =>
    intro s hacc hflag
    obtain ⟨hacc1, hflag1⟩ := resampleSegment_acc_flag g I hI s seg hacc hflag
    rw [List.foldl_cons]
    exact ih (resampleSegment g I s seg) hacc1 hflag1
theorem foldl_resampleSegment_spec (g : SphericalGeo) (I : ℚ) (hI : 0 < I)
    (segs : List (RoutePoint × RoutePoint))
    (hd : ∀ pq ∈ segs, 0 ≤ g.computeDistanceBetween pq.1 pq.2) :
    ∀ s : RState, s.waypoints ≠ [] → 0 ≤ s.distanceAccumulator →
      s.distanceAccumulator < I →
      ∃ ts : List Waypoint,
        (segs.foldl (resampleSegment g I) s).waypoints = s.waypoints ++ ts ∧
        (segs.foldl (resampleSegment g I) s).distanceAccumulator
          = s.distanceAccumulator
            + ((segs.map fun pq => g.computeDistanceBetween pq.1 pq.2).sum)
            - ts.length * I ∧
        0 ≤ (segs.foldl (resampleSegment g I) s).distanceAccumulator ∧
        (segs.foldl (resampleSegment g I) s).distanceAccumulator < I := by
  induction segs with
  | nil =>
    intro s _ hnn hlt
    exact ⟨[], by simp, by simp, hnn, hlt⟩
  | cons seg rest ih =>
    intro s hne hnn hlt
    obtain ⟨ts1, hw1, _, hacc1, hlt1, hnn1, _⟩ :=
      resampleSegment_spec g I hI s seg hne
    obtain ⟨ts2, hw2, hacc2, hnn2, hlt2⟩ :=
      ih (fun pq hpq => hd pq (List.mem_cons_of_mem seg hpq))
        (resampleSegment g I s seg)
        (by rw [hw1]; simp [hne])
        (hnn1 hnn (hd seg (List.mem_cons_self seg rest)))
        hlt1
    refine ⟨ts1 ++ ts2, ?_, ?_, hnn2, hlt2⟩
    · rw [List.foldl_cons, hw2, hw1, List.append_assoc]
    · rw [List.foldl_cons, hacc2, hacc1]
      simp only [List.map_cons, List.sum_cons, List.length_append]
      push_cast
      ring
theorem resampleRun_spec (g : SphericalGeo) (I : ℚ) (hI : 0 < I)
    (pts : List RoutePoint)
    (hd : ∀ p q, 0 ≤ g.computeDistanceBetween p q)
    (hlen : 2 ≤ pts.length) :
    ∃ k : ℕ,
      (resampleRun g pts I).waypoints.length = 1 + k ∧
      (resampleRun g pts I).distanceAccumulator = pathLength g pts - k * I ∧
      0 ≤ (resampleRun g pts I).distanceAccumulator ∧
      (resampleRun g pts I).distanceAccumulator < I ∧
      (resampleRun g pts I).waypoints.head?
        = some ⟨(pts.getD 0 default).lat, (pts.getD 0 default).lng,
          g.computeHeading (pts.getD 0 default) (pts.getD 1 default)⟩ := by
  match pts, hlen with
  | a :: b :: rest, _ =>
    unfold resampleRun
    rw [show ((a :: b :: rest).zip (a :: b :: rest).tail)
        = (a, b) :: ((b :: rest).zip rest) from rfl]
    rw [List.foldl_cons]
    obtain ⟨ts0, hw0, _, hacc0, hlt0, hnn0, _⟩ :=
      resampleSegment_init g I hI (a, b)
    obtain ⟨ts1, hw1, hacc1, hnn1, hlt1⟩ :=
      foldl_resampleSegment_spec g I hI ((b :: rest).zip rest)
        (fun pq _ => hd pq.1 pq.2)
        (resampleSegment g I ⟨[], 0, false⟩ (a, b))
        (by rw [hw0]; simp)
        (hnn0 (hd a b)) hlt0
    refine ⟨ts0.length + ts1.length, ?_, ?_, hnn1, hlt1, ?_⟩
    · rw [hw1, hw0]
      simp only [List.length_append, List.length_cons]
      omega
    · rw [hacc1, hacc0]
      rw [show pathLength g (a :: b :: rest)
          = g.computeDistanceBetween a b
            + (((b :: rest).zip rest).map
                fun pq => g.computeDistanceBetween pq.1 pq.2).sum from by
        simp [pathLength]]
      push_cast
      ring
    · rw [hw1, hw0]
      rfl
theorem testGeo_dist_nonneg :
    ∀ p q, 0 ≤ testGeo.computeDistanceBetween p q := by
  intro p q
  show 0 ≤ (|q.lat - p.lat| + |q.lng - p.lng|) * 111000
  positivity
theorem testGeo_dist_self (p : RoutePoint) :
    testGeo.computeDistanceBetween p p = 0 := by
  show (|p.lat - p.lat| + |p.lng - p.lng|) * 111000 = 0
  simp
theorem head?_eq_getD {α : Type} [Inhabited α] (l : List α) (h : l ≠ []) :
    l.head? = some (l.getD 0 default) := by
  cases l with
  | nil => exact absurd rfl h
  | cons a t => rfl
theorem getLast?_eq_getD {α : Type} [Inhabited α] (l : List α) (h : l ≠ []) :
    l.getLast? = some (l.getD (l.length - 1) default) := by
  have hlen : l.length - 1 < l.length := by
    cases l with
    | nil => exact absurd rfl h
    | cons a t => simp
  rw [List.getLast?_eq_getElem?, List.getD_eq_getElem?_getD,
    List.getElem?_eq_getElem hlen]
  rfl
theorem mem_of_getLast?' {α : Type} {l : List α} {a : α}
    (h : l.getLast? = some a) : a ∈ l := by
  induction l with
  | nil => simp at h
  | cons x t ih =>
    cases t with
    | nil =>
      simp only [List.getLast?_singleton, Option.some.injEq] at h
      rw [← h]
      simp
    | cons y u =>
      rw [List.getLast?_cons_cons] at h
      exact List.mem_cons_of_mem x (ih h)
theorem resampleRun_waypoints_struct (g : SphericalGeo) (I : ℚ) (hI : 0 < I)
    (pts : List RoutePoint) (hlen : 2 ≤ pts.length) :
    ∃ ts : List Waypoint,
      (resampleRun g pts I).waypoints
        = ⟨(pts.getD 0 default).lat, (pts.getD 0 default).lng,
            g.computeHeading (pts.getD 0 default) (pts.getD 1 default)⟩ :: ts ∧
      ∀ w ∈ ts, ∃ p q, w.heading = g.computeHeading p q := by
  match pts, hlen with
  | a :: b :: rest, _ =>
    unfold resampleRun
    rw [show ((a :: b :: rest).zip (a :: b :: rest).tail)
        = (a, b) :: ((b :: rest).zip rest) from rfl, List.foldl_cons]
    obtain ⟨ts0, hw0, hh0, _, _, _⟩ := resampleSegment_init g I hI (a, b)
    obtain ⟨ts1, hw1, hh1⟩ :=
      foldl_resampleSegment_append g I hI ((b :: rest).zip rest)
        (resampleSegment g I ⟨[], 0, false⟩ (a, b)) (by rw [hw0]; simp)
    refine ⟨ts0 ++ ts1, ?_, ?_⟩
    · rw [hw1, hw0]
      rfl
    · intro w hw
      rcases List.mem_append.mp hw with h' | h'
      · exact ⟨a, b, hh0 w h'⟩
      · exact hh1 w h'
/-- C4: a route whose flattened point sequence has fewer than two points
(in particular a route with no legs or only empty step lists) yields the
empty waypoint sequence; no error path exists (the embedding is a total
function). -/
theorem generateWaypoints_short (g : SphericalGeo) (route : DirectionsResult)
    (I : ℚ) (hI : 0 < I) (hshort : (flattenRoute route).length < 2) :
    generateWaypoints g route I = [] := by
  match hleg : firstLeg route with
  | none => simp [generateWaypoints, hleg]
  | some leg =>
    have hlt : (flattenLeg leg).length < 2 := by
      unfold flattenRoute at hshort
      rw [hleg] at hshort
      exact hshort
    simp only [generateWaypoints, hleg]
    rw [if_pos hlt]
theorem generateWaypoints_short_witness :
    (0 : ℚ) < 1 ∧ (flattenRoute ⟨[]⟩).length < 2 ∧
    generateWaypoints testGeo ⟨[]⟩ 1 = [] :=
  ⟨by norm_num, by decide,
    generateWaypoints_short testGeo ⟨[]⟩ 1 (by norm_num) (by decide)⟩
/-- C5: for a flattened path of at least two points and any positive
interval, the waypoint sequence has at least two entries, its first
waypoint sits at the path's first point and its last waypoint at the
path's last point. -/
theorem generateWaypoints_endpoints (g : SphericalGeo)
    (route : DirectionsResult) (I : ℚ) (hI : 0 < I)
    (hlen : 2 ≤ (flattenRoute route).length) :
    2 ≤ (generateWaypoints g route I).length ∧
    ((generateWaypoints g route I).map Waypoint.pos).head?
      = (flattenRoute route).head? ∧
    ((generateWaypoints g route I).map Waypoint.pos).getLast?
      = (flattenRoute route).getLast? := by
  obtain ⟨leg, hleg⟩ : ∃ leg, firstLeg route = some leg := by
    unfold flattenRoute at hlen
    match h : firstLeg route with
    | none =>
      rw [h] at hlen
      simp at hlen
    | some leg => exact ⟨leg, rfl⟩
  have hpts : flattenRoute route = flattenLeg leg := by
    unfold flattenRoute
    rw [hleg]
  rw [hpts] at hlen ⊢
  have hne : flattenLeg leg ≠ [] := by
    intro hcon
    rw [hcon] at hlen
    simp at hlen
  simp only [generateWaypoints, hleg]
  rw [if_neg (by omega)]
  obtain ⟨ts, hw, _⟩ :=
    resampleRun_waypoints_struct g I hI (flattenLeg leg) hlen
  refine ⟨?_, ?_, ?_⟩
  · rw [hw]
    simp
  · rw [hw, head?_eq_getD (flattenLeg leg) hne]
    rfl
  · simp only [List.map_append, List.map_cons, List.map_nil]
    rw [List.getLast?_concat, getLast?_eq_getD (flattenLeg leg) hne]
    rfl
theorem generateWaypoints_endpoints_witness :
    (0 : ℚ) < 200 ∧ 2 ≤ (flattenRoute westRoute).length ∧
    (2 ≤ (generateWaypoints testGeo westRoute 200).length ∧
      ((generateWaypoints testGeo westRoute 200).map Waypoint.pos).head?
        = (flattenRoute westRoute).head? ∧
      ((generateWaypoints testGeo westRoute 200).map Waypoint.pos).getLast?
        = (flattenRoute westRoute).getLast?) :=
  ⟨by norm_num, by decide,
    generateWaypoints_endpoints testGeo westRoute 200 (by norm_num)
      (by decide)⟩
/-- C6: for a flattened path of at least two points, total path length L and
positive interval, the number of waypoints is exactly `⌊L / interval⌋ + 2`
(so the interior count, excluding the two mandatory endpoints, is exactly
`⌊L / interval⌋`, well within the claim's ±1 rounding allowance). -/
theorem generateWaypoints_count (g : SphericalGeo) (route : DirectionsResult)
    (I : ℚ) (hI : 0 < I)
    (hd : ∀ p q, 0 ≤ g.computeDistanceBetween p q)
    (hlen : 2 ≤ (flattenRoute route).length) :
    ((generateWaypoints g route I).length : ℤ)
      = ⌊pathLength g (flattenRoute route) / I⌋ + 2 := by
  obtain ⟨leg, hleg⟩ : ∃ leg, firstLeg route = some leg := by
    unfold flattenRoute at hlen
    match h : firstLeg route with
    | none =>
      rw [h] at hlen
      simp at hlen
    | some leg => exact ⟨leg, rfl⟩
  have hpts : flattenRoute route = flattenLeg leg := by
    unfold flattenRoute
    rw [hleg]
  rw [hpts] at hlen ⊢
  simp only [generateWaypoints, hleg]
  rw [if_neg (by omega)]
  obtain ⟨k, hlen', hacc, hnn, hlt, _⟩ :=
    resampleRun_spec g I hI (flattenLeg leg) hd hlen
  rw [hacc] at hnn hlt
  have hfloor : ⌊pathLength g (flattenLeg leg) / I⌋ = (k : ℤ) := by
    rw [Int.floor_eq_iff]
    constructor
    · push_cast
      rw [le_div_iff hI]
      linarith
    · push_cast
      rw [div_lt_iff hI]
      linarith
  rw [hfloor]
  rw [List.length_append, hlen']
  simp only [List.length_cons, List.length_nil]
  push_cast
  ring
theorem generateWaypoints_count_witness :
    (0 : ℚ) < 200 ∧
    (∀ p q, 0 ≤ testGeo.computeDistanceBetween p q) ∧
    2 ≤ (flattenRoute westRoute).length ∧
    ((generateWaypoints testGeo westRoute 200).length : ℤ)
      = ⌊pathLength testGeo (flattenRoute westRoute) / 200⌋ + 2 :=
  ⟨by norm_num, testGeo_dist_nonneg, by decide,
    generateWaypoints_count testGeo westRoute 200 (by norm_num)
      testGeo_dist_nonneg (by decide)⟩
/-- C7: a zero-length segment (identical adjacent points) leaves the
resampling state unchanged — it contributes zero to the accumulator and
emits no waypoint — and over every whole run with a positive interval the
division `overflow / segmentDistance` is never executed with a zero
denominator (the instrumentation flag stays `false`). -/
theorem zero_length_segment_skipped :
    (∀ (g : SphericalGeo) (I : ℚ) (s : RState) (p : RoutePoint),
      0 < I → s.waypoints ≠ [] → s.distanceAccumulator < I →
      g.computeDistanceBetween p p = 0 →
      resampleSegment g I s (p, p) = s) ∧
    (∀ (g : SphericalGeo) (pts : List RoutePoint) (I : ℚ), 0 < I →
      (resampleRun g pts I).divByZero = false) := by
  constructor
  · intro g I s p hI hne hacc hdist
    exact resampleSegment_zero g I s p hI hne hacc hdist
  · intro g pts I hI
    unfold resampleRun
    exact (foldl_resampleSegment_acc_flag g I hI (pts.zip pts.tail)
      ⟨[], 0, false⟩ (by exact hI) rfl).2
theorem zero_length_segment_skipped_witness :
    ((0 : ℚ) < 10 ∧ ([⟨0, 0, 0⟩] : List Waypoint) ≠ [] ∧ (5 : ℚ) < 10 ∧
      testGeo.computeDistanceBetween ⟨1, 2⟩ ⟨1, 2⟩ = 0 ∧
      resampleSegment testGeo 10 ⟨[⟨0, 0, 0⟩], 5, false⟩ (⟨1, 2⟩, ⟨1, 2⟩)
        = ⟨[⟨0, 0, 0⟩], 5, false⟩) ∧
    (resampleRun testGeo [⟨0, 0⟩, ⟨0, -1/1000⟩] 200).divByZero = false :=
  ⟨⟨by norm_num, by simp, by norm_num, testGeo_dist_self ⟨1, 2⟩,
    zero_length_segment_skipped.1 testGeo 10 ⟨[⟨0, 0, 0⟩], 5, false⟩
      ⟨1, 2⟩ (by norm_num) (by simp)
      (show (5 : ℚ) < 10 by norm_num)
      (testGeo_dist_self ⟨1, 2⟩)⟩,
    zero_length_segment_skipped.2 testGeo [⟨0, 0⟩, ⟨0, -1/1000⟩] 200
      (by norm_num)⟩
theorem generateWaypoints_headings (g : SphericalGeo)
    (route : DirectionsResult) (I : ℚ) (hI : 0 < I) (P : ℚ → Prop)
    (h0 : P 0) (hor : ∀ p q, P (g.computeHeading p q)) :
    ∀ w ∈ generateWaypoints g route I, P w.heading := by
  match hleg : firstLeg route with
  | none => simp [generateWaypoints, hleg]
  | some leg =>
    by_cases hshort : (flattenLeg leg).length < 2
    · simp [generateWaypoints, hleg, if_pos hshort]
    · simp only [generateWaypoints, hleg]
      rw [if_neg hshort]
      obtain ⟨ts, hwp, hts⟩ :=
        resampleRun_waypoints_struct g I hI (flattenLeg leg) (by omega)
      have hall : ∀ w ∈ (resampleRun g (flattenLeg leg) I).waypoints,
          P w.heading := by
        intro w hw
        rw [hwp] at hw
        rcases List.mem_cons.mp hw with h'' | h''
        · rw [h'']
          exact hor _ _
        · obtain ⟨p, q, hpq⟩ := hts w h''
          rw [hpq]
          exact hor p q
      intro w hw
      rcases List.mem_append.mp hw with h' | h'
      · exact hall w h'
      · rw [List.mem_singleton.mp h']
        show P (match (resampleRun g (flattenLeg leg) I).waypoints.getLast? with
          | some w => w.heading
          | none => 0)
        match hlast : (resampleRun g (flattenLeg leg) I).waypoints.getLast? with
        | none => exact h0
        | some w' => exact hall w' (mem_of_getLast?' hlast)
/-- C1 (amended): headings produced by `blendHeadingsWithMomentum` are
normalized into [0, 360); the active `generateWaypoints`, however, passes
the external `computeHeading` bearings through unnormalized, so its waypoint
headings all lie in [0, 360) exactly when the bearing function's outputs do
(the fallback heading of the final waypoint is 0, which is in range). -/
theorem heading_range_amended :
    (∀ h1 h2 m s : ℚ, 0 ≤ blendHeadingsWithMomentum h1 h2 m s ∧
        blendHeadingsWithMomentum h1 h2 m s < 360) ∧
    (∀ (g : SphericalGeo) (route : DirectionsResult) (I : ℚ), 0 < I →
      (∀ p q, 0 ≤ g.computeHeading p q ∧ g.computeHeading p q < 360) →
      ∀ w ∈ generateWaypoints g route I,
        0 ≤ w.heading ∧ w.heading < 360) := by
  constructor
  · intro h1 h2 m s
    exact ⟨(normalizeHeading_mem _).1, (normalizeHeading_mem _).2⟩
  · intro g route I hI hor
    exact generateWaypoints_headings g route I hI
      (fun h => 0 ≤ h ∧ h < 360) ⟨le_refl 0, by norm_num⟩ hor
theorem heading_range_amended_witness :
    (0 : ℚ) < 200 ∧
    (∀ p q, 0 ≤ northGeo.computeHeading p q ∧ northGeo.computeHeading p q < 360) ∧
    ∀ w ∈ generateWaypoints northGeo westRoute 200,
      0 ≤ w.heading ∧ w.heading < 360 :=
  ⟨by norm_num, fun p q => ⟨le_refl 0, by show (0:ℚ) < 360; norm_num⟩,
    heading_range_amended.2 northGeo westRoute 200 (by norm_num)
      (fun p q => ⟨le_refl 0, by show (0:ℚ) < 360; norm_num⟩)⟩
/-- C1 counterexample: on the due-west two-point route, with the bearing
collaborator modelled at the library value -90 for a westward segment, the
pipeline emits a waypoint whose heading is -90, outside [0, 360) — the code
never normalizes the first-, segment- or final-waypoint headings. -/
theorem generateWaypoints_heading_counterexample :
    ∃ w ∈ generateWaypoints testGeo westRoute 200,
      ¬ (0 ≤ w.heading ∧ w.heading < 360) := by
  have hhead : testGeo.computeHeading ⟨0, 0⟩ ⟨0, -1/1000⟩ = -90 := by
    show (if (⟨0, -1/1000⟩ : RoutePoint).lng < (⟨0, 0⟩ : RoutePoint).lng
      then (-90 : ℚ) else 0) = -90
    rw [if_pos (by norm_num)]
  refine ⟨⟨0, 0, -90⟩, ?_, by norm_num⟩
  have hleg : firstLeg westRoute = some ⟨[[⟨0, 0⟩, ⟨0, -1/1000⟩]]⟩ := rfl
  have hflat : flattenLeg ⟨[[⟨0, 0⟩, ⟨0, -1/1000⟩]]⟩
      = [⟨0, 0⟩, ⟨0, -1/1000⟩] := rfl
  simp only [generateWaypoints, hleg]
  rw [if_neg (by rw [hflat]; norm_num)]
  apply List.mem_append_left
  obtain ⟨ts, hwp, _⟩ := resampleRun_waypoints_struct testGeo 200 (by norm_num)
    (flattenLeg ⟨[[⟨0, 0⟩, ⟨0, -1/1000⟩]]⟩) (by rw [hflat]; norm_num)
  rw [hwp]
  have : (⟨((flattenLeg ⟨[[⟨0, 0⟩, ⟨0, -1/1000⟩]]⟩).getD 0 default).lat,
      ((flattenLeg ⟨[[⟨0, 0⟩, ⟨0, -1/1000⟩]]⟩).getD 0 default).lng,
      testGeo.computeHeading
        ((flattenLeg ⟨[[⟨0, 0⟩, ⟨0, -1/1000⟩]]⟩).getD 0 default)
        ((flattenLeg ⟨[[⟨0, 0⟩, ⟨0, -1/1000⟩]]⟩).getD 1 default)⟩ : Waypoint)
      = ⟨0, 0, -90⟩ := by
    rw [show (flattenLeg ⟨[[⟨0, 0⟩, ⟨0, -1/1000⟩]]⟩).getD 0 default
        = (⟨0, 0⟩ : RoutePoint) from rfl,
      show (flattenLeg ⟨[[⟨0, 0⟩, ⟨0, -1/1000⟩]]⟩).getD 1 default
        = (⟨0, -1/1000⟩ : RoutePoint) from rfl, hhead]
  rw [this]
  exact List.mem_cons_self _ _
theorem enhancedFrames_spec_witness :
    ((Frame.mk [10, 20, 30, 40] 1 1).data.length
      = (Frame.mk [50, 60, 70, 80] 1 1).data.length) ∧
    (∃ f1 f2,
      blendImages (Frame.mk [10, 20, 30, 40] 1 1).data
          (Frame.mk [50, 60, 70, 80] 1 1).data (1/3) = Except.ok f1 ∧
      blendImages (Frame.mk [10, 20, 30, 40] 1 1).data
          (Frame.mk [50, 60, 70, 80] 1 1).data (2/3) = Except.ok f2 ∧
      enhancedFrames 3
          [Frame.mk [10, 20, 30, 40] 1 1, Frame.mk [50, 60, 70, 80] 1 1]
        = Except.ok [Frame.mk [10, 20, 30, 40] 1 1, ⟨f1, 1, 1⟩, ⟨f2, 1, 1⟩,
            Frame.mk [50, 60, 70, 80] 1 1]) ∧
    (([Frame.mk [10, 20, 30, 40] 1 1] : List Frame) ≠ [] ∧
      enhancedFrames 3 [Frame.mk [10, 20, 30, 40] 1 1]
        = Except.ok [Frame.mk [10, 20, 30, 40] 1 1] ∧
      ([Frame.mk [10, 20, 30, 40] 1 1] : List Frame).getLast?
        = ([Frame.mk [10, 20, 30, 40] 1 1] : List Frame).getLast?) :=
  ⟨rfl,
    enhancedFrames_spec.1 (Frame.mk [10, 20, 30, 40] 1 1)
      (Frame.mk [50, 60, 70, 80] 1 1) rfl,
    by simp,
    rfl,
    enhancedFrames_spec.2 3 [Frame.mk [10, 20, 30, 40] 1 1]
      [Frame.mk [10, 20, 30, 40] 1 1] (by simp) rfl⟩

end RouteView
